import Mathlib

/-!
Shallow embedding of `babel-plugin-jest-easy-mock` (src/src/index.ts).

The plugin walks a parsed file once, collecting import bindings
(`ImportDeclaration` visitor) and mock requests / existing jest mocks
(`CallExpression` visitor), then in `post` aggregates the requests per
imported module and unshifts one `jest.mock(path, factory)` registration
statement per module into the program body.

Modelling conventions:
  * Babel expression nodes are the inductive `Expr`; object-literal
    property keys are modelled as plain strings (the plugin itself only
    ever builds `t.objectProperty(t.stringLiteral key, value)` nodes).
  * The fixed factory template built by `buildArrowFunc`
    (`() => { const o = OBJ; Object.defineProperty(o, "__esModule", ...); return o; }`)
    is abstracted as the constructor `Expr.arrowFactory` holding the
    properties of `OBJ`, since the surrounding text never varies.
  * JS `Map` and plain-object tables are association lists with the
    JS update semantics (`mapGet` / `mapSet`): setting an existing key
    overwrites in place, a new key is appended.
  * Statements are modelled at statement positions; nested scopes are
    modelled by `Stmt.funcDecl`, whose body the traversal visits exactly
    as Babel's visitor does.
  * JS falsiness of strings ("" is falsy) is modelled explicitly where
    the source tests truthiness (`!lastIdentifier`, `!m.subProperty`).
-/

namespace JestEasyMock

/-- Babel expression nodes, restricted to the shapes the plugin inspects or
builds.  `lit n` stands for any other expression (booleans, arrow functions,
numbers, ...), which the plugin treats as opaque. -/
inductive Expr where
  | ident (name : String)
  | member (obj : Expr) (property : Expr) (computed : Bool)
  | stringLit (value : String)
  | call (callee : Expr) (args : List Expr)
  | objectExpr (props : List (String × Expr))
  | arrowFactory (props : List (String × Expr))
  | lit (tag : Nat)

/-- Import specifiers of an `ImportDeclaration`. -/
inductive ImportSpec where
  | defaultSpec (localName : String)
  | namespaceSpec (localName : String)
  | namedSpec (localName : String) (importedName : String)
deriving DecidableEq

/-- Statements at statement positions; `funcDecl` models any nested scope
whose body the traversal also visits. -/
inductive Stmt where
  | exprStmt (e : Expr)
  | importDecl (source : String) (specifiers : List ImportSpec)
  | funcDecl (name : String) (body : List Stmt)
  | otherStmt (tag : Nat)

/-- `ImportDefinition.type` in the source: "default" | "namespace" | "import". -/
inductive ImportType where
  | defaultTy
  | namespaceTy
  | importTy
deriving DecidableEq

/-- `ImportDefinition` from the source. -/
structure ImportDefinition where
  name : String
  type : ImportType
deriving DecidableEq

/-- `MockDefinition` from the source: property segments and implementation. -/
structure MockDefinition where
  subProperties : List String
  expression : Expr

/-- One entry of `ModuleMockDefinition[key]` in the source. -/
structure MockEntry where
  expression : Expr
  subProperty : Option String

/-- The `"name" | "mock"` tag distinguishing `jest.mockObj` / `jest.mockFn`. -/
inductive MockType where
  | name
  | mock
deriving DecidableEq

/-- `PluginState` from the source (the fields set by `pre`). -/
structure PluginState where
  importIdentifiers : List (String × List ImportDefinition)
  mocks : List (String × List MockDefinition)
  existingJestMocks : List String

/-- A parsed file: its directive prologue (held separately by Babel on the
`Program` node) and its statement body. -/
structure Program where
  directives : List String
  body : List Stmt

/-- Lookup in a JS `Map` / plain object used as a table. -/
def mapGet {α : Type} (m : List (String × α)) (k : String) : Option α :=
  (m.find? (fun p => p.1 = k)).map (fun p => p.2)

/-- JS `Map.set` / object property assignment: overwrite in place when the
key exists, append otherwise. -/
def mapSet {α : Type} (m : List (String × α)) (k : String) (v : α) : List (String × α) :=
  if m.any (fun p => p.1 = k) then
    m.map (fun p => if p.1 = k then (k, v) else p)
  else
    m ++ [(k, v)]

/-- `t.isIdentifier`. -/
def isIdentifier : Expr → Bool
  | .ident _ => true
  | _ => false

/-- `t.isMemberExpression`. -/
def isMemberExpression : Expr → Bool
  | .member _ _ _ => true
  | _ => false

/-- `t.isStringLiteral`. -/
def isStringLiteral : Expr → Bool
  | .stringLit _ => true
  | _ => false

/-- The module-level constants of the source file. -/
def globalJestIdentifier : String := "jest"

def pluginMockIdentifiers : List String := ["mockObj", "mockFn"]

def jestMockCallExpressions : List String := ["mock", "doMock", "unmock", "dontMock"]

/-- `isJestMockCallExpression` from the source, phrased on the callee of the
call expression (the source only ever inspects `node.callee`).  Note the
source never checks the `computed` flag. -/
def isJestMockCallExpression : Expr → Bool
  | .member (.ident o) (.ident p) _ =>
      o = globalJestIdentifier && jestMockCallExpressions.contains p
  | _ => false

/-- `isMockObjCallExpession` from the source (name kept verbatim), phrased on
the callee.  Returns the request kind for `jest.mockObj` / `jest.mockFn`. -/
def isMockObjCallExpession : Expr → Option MockType
  | .member (.ident o) (.ident p) _ =>
      if o = globalJestIdentifier && pluginMockIdentifiers.contains p then
        some (if p = "mockObj" then .name else .mock)
      else
        none
  | _ => none

/-- JS truthiness test `!m.subProperty` on an optional string: `undefined`
and the empty string are falsy. -/
def subPropFalsy : Option String → Bool
  | none => true
  | some s => s = ""

/-- The running `prop.value` update of `createModuleMockImpl`'s nested
branch (source lines 126-136): a mock without `subProperty` overwrites the
value outright; a mock with a `subProperty` keeps the value when it already
is an object expression (otherwise starts a fresh one via the no-argument
`t.objectExpression()`, modelled as an empty object expression just as the
later evolutions spell it `t.objectExpression([])`), and pushes the
sub-property onto it. -/
def resolveKeyStep (value : Expr) (m : MockEntry) : Expr :=
  match m.subProperty with
  | none => m.expression
  | some s =>
      if s = "" then m.expression
      else
        match value with
        | .objectExpr ps => .objectExpr (ps ++ [(s, m.expression)])
        | _ => .objectExpr [(s, m.expression)]

/-- The value `createModuleMockImpl` computes for one export key in the
nested branch, starting from the initial `t.objectExpression([])`. -/
def resolveKeyValue (mocks : List MockEntry) : Expr :=
  mocks.foldl resolveKeyStep (.objectExpr [])

/-- `createModuleMockImpl` from the source: turns a `ModuleMockDefinition`
into the property list of the factory's object literal.  Keys with an empty
entry list are skipped; if every entry lacks a (truthy) `subProperty` the
last entry wins outright; otherwise the entries are replayed by
`resolveKeyStep`. -/
def createModuleMockImpl (defn : List (String × List MockEntry)) : List (String × Expr) :=
  defn.foldl
    (fun topLevelProps kv =>
      let mocks := kv.2
      if mocks.isEmpty then topLevelProps
      else if mocks.all (fun m => subPropFalsy m.subProperty) then
        match mocks.getLast? with
        | some lastMock => topLevelProps ++ [(kv.1, lastMock.expression)]
        | none => topLevelProps
      else
        topLevelProps ++ [(kv.1, resolveKeyValue mocks)])
    []

/-- `buildJestMockForModule` from the source: the registration statement
`jest.mock(source, factory)`. -/
def buildJestMockForModule (source : String) (mocks : List (String × List MockEntry)) : Stmt :=
  .exprStmt (.call (.member (.ident globalJestIdentifier) (.ident "mock") false)
    [.stringLit source, .arrowFactory (createModuleMockImpl mocks)])

/-- The `while (t.isMemberExpression(obj))` walk of `createMockDefinition`
(source lines 184-190): peel member expressions inward, prepending each
identifier property; non-identifier properties are skipped.  Returns the
final `obj` together with the accumulated sub-identifiers. -/
def collectSubProps : Expr → List String → Expr × List String
  | .member o p _, acc =>
      collectSubProps o (match p with | .ident n => n :: acc | _ => acc)
  | e, acc => (e, acc)

/-- The default implementation expression for a request without an explicit
replacement (source lines 200-205): a string literal of the last identifier
for `"name"` requests, `jest.fn()` for `"mock"` requests. -/
def defaultImpl (type : MockType) (lastIdentifier : String) : Expr :=
  match type with
  | .name => .stringLit lastIdentifier
  | .mock => .call (.member (.ident globalJestIdentifier) (.ident "fn") false) []

/-- The name-resolution part of `createMockDefinition` (source lines
171-195): `lastIdentifier`, `accessIdentifierName` and `subIdentifiers` as
computed for the argument expression.  Arguments that are neither
identifiers nor member expressions, or member expressions whose outermost
property is not an identifier, resolve to `none` names. -/
def resolveMockTarget (defNode : Expr) : Option String × Option String × List String :=
  match defNode with
  | .ident n => (some n, some n, [])
  | .member o p _ =>
      match p with
      | .ident pn =>
          let walked := collectSubProps o []
          let access : Option String :=
            match walked.1 with
            | .ident bn => some bn
            | _ => none
          (some pn, access, walked.2 ++ [pn])
      | _ => (none, none, [])
  | _ => (none, none, [])

/-- `createMockDefinition` from the source (`pre`, lines 170-212): resolve
the argument via `resolveMockTarget` and append a `MockDefinition` to the
per-root list in `this.mocks`; unresolved or JS-falsy (empty-string) names
are skipped silently. -/
def createMockDefinition (st : PluginState) (defNode : Expr) (type : MockType)
    (impl : Option Expr) : PluginState :=
  match resolveMockTarget defNode with
  | (some lastIdentifier, some accessIdentifierName, subIdentifiers) =>
      if lastIdentifier = "" ∨ accessIdentifierName = "" then st
      else
        let implExpr := impl.getD (defaultImpl type lastIdentifier)
        let mockDef := (mapGet st.mocks accessIdentifierName).getD []
        { st with
            mocks := mapSet st.mocks accessIdentifierName
              (mockDef ++ [⟨subIdentifiers, implExpr⟩]) }
  | _ => st

/-- The `CallExpression` visitor (source lines 307-335).  Returns the state
after the visit together with `true` when the call statement is removed
(`path.remove()` on a call that is the whole expression statement removes
the statement).  The source's `t.isExpression(implementationNode)` guard is
always satisfied here because call arguments are modelled as expressions
(spread elements and argument placeholders are outside the model). -/
def visitCallExpression (st : PluginState) (e : Expr) : PluginState × Bool :=
  match e with
  | .call callee args =>
      match isMockObjCallExpession callee with
      | some mockType =>
          let isWithImplementation : Bool :=
            args.length = 2 &&
              match args.get? 1 with
              | some a1 => !isIdentifier a1 && !isMemberExpression a1
              | none => false
          let st' :=
            if isWithImplementation then
              match args.get? 0, args.get? 1 with
              | some firstArg, some implementationNode =>
                  createMockDefinition st firstArg mockType (some implementationNode)
              | _, _ => st
            else
              args.foldl (fun s arg => createMockDefinition s arg mockType none) st
          (st', true)
      | none =>
          if isJestMockCallExpression callee then
            match args with
            | .stringLit v :: _ =>
                ({ st with existingJestMocks := st.existingJestMocks ++ [v] }, false)
            | _ => (st, false)
          else (st, false)
  | _ => (st, false)

/-- The `ImportDeclaration` visitor (source lines 280-306). -/
def visitImportDeclaration (st : PluginState) (source : String)
    (specifiers : List ImportSpec) : PluginState :=
  let moduleIdentifiers := (mapGet st.importIdentifiers source).getD []
  let moduleIdentifiers := specifiers.foldl
    (fun acc s =>
      match s with
      | .defaultSpec l => acc ++ [⟨l, .defaultTy⟩]
      | .namespaceSpec l => acc ++ [⟨l, .namespaceTy⟩]
      | .namedSpec l imported =>
          if imported = "default" then acc ++ [⟨l, .defaultTy⟩]
          else acc ++ [⟨l, .importTy⟩])
    moduleIdentifiers
  if specifiers.length > 0 then
    { st with importIdentifiers := mapSet st.importIdentifiers source moduleIdentifiers }
  else st

mutual

/-- The visit of one statement: Babel dispatches the visitors on every
`ImportDeclaration` and `CallExpression` node in file order, also inside
nested scopes.  Returns the state after the visit and `none` when the
statement was removed. -/
def traverseStmt (st : PluginState) : Stmt → PluginState × Option Stmt
  | .exprStmt e =>
      let visited := visitCallExpression st e
      (visited.1, if visited.2 then none else some (.exprStmt e))
  | .importDecl source specs =>
      (visitImportDeclaration st source specs, some (.importDecl source specs))
  | .funcDecl n body =>
      let inner := traverseStmts st body
      (inner.1, some (.funcDecl n inner.2))
  | .otherStmt t => (st, some (.otherStmt t))
termination_by structural s => s

/-- The traversal over a statement list, threading the plugin state and
dropping removed statements. -/
def traverseStmts (st : PluginState) : List Stmt → PluginState × List Stmt
  | [] => (st, [])
  | s :: rest =>
      let visited := traverseStmt st s
      let next := traverseStmts visited.1 rest
      (next.1, match visited.2 with
        | none => next.2
        | some s2 => s2 :: next.2)
termination_by structural l => l

end

/-- The namespace-binding branch of `post`'s aggregation (source lines
235-251): only requests with exactly one or two sub-identifiers are kept;
the first becomes the export key, the second (if present) the sub-key. -/
def namespaceStep (acc : List (String × List MockEntry)) (m : MockDefinition) :
    List (String × List MockEntry) :=
  if m.subProperties.length = 1 ∨ m.subProperties.length = 2 then
    match m.subProperties with
    | key :: rest =>
        let mockArr := (mapGet acc key).getD []
        mapSet acc key (mockArr ++ [⟨m.expression, rest.head?⟩])
    | [] => acc
  else acc

/-- The per-request step of the default/named branch of `post`'s aggregation
(source lines 254-264): requests with more than one sub-identifier are
skipped; otherwise the single sub-identifier (if any) becomes the sub-key. -/
def bindingEntryStep (arr : List MockEntry) (m : MockDefinition) : List MockEntry :=
  if m.subProperties.length > 1 then arr
  else arr ++ [⟨m.expression, m.subProperties.get? 0⟩]

/-- The per-binding body of `post`'s aggregation loop (source lines
226-267), accumulating into `mocksForModule`.  Note that the default/named
branch assigns `mocksForModule[moduleIdentifierName] = mocksArr`
unconditionally once the binding has at least one recorded request, even
when every request was skipped for depth. -/
def aggregateBinding (st : PluginState) (acc : List (String × List MockEntry))
    (i : ImportDefinition) : List (String × List MockEntry) :=
  let moduleIdentifierName := match i.type with
    | .defaultTy => "default"
    | _ => i.name
  match mapGet st.mocks i.name with
  | none => acc
  | some mocksForModuleIdentifier =>
      if mocksForModuleIdentifier.isEmpty then acc
      else
        match i.type with
        | .namespaceTy => mocksForModuleIdentifier.foldl namespaceStep acc
        | _ =>
            let mocksArr := (mapGet acc moduleIdentifierName).getD []
            let mocksArr := mocksForModuleIdentifier.foldl bindingEntryStep mocksArr
            mapSet acc moduleIdentifierName mocksArr

/-- The `mocksForModule` table built for one module path in `post`. -/
def buildMocksForModule (st : PluginState) (importsFromModule : List ImportDefinition) :
    List (String × List MockEntry) :=
  importsFromModule.foldl (aggregateBinding st) []

/-- `post` from the source (lines 214-274): for each imported module not
already mocked explicitly, aggregate its requests and unshift a
registration statement into the body.  The source's `!this.program` early
return is dropped: the `Program` visitor always stores the program before
`post` runs. -/
def post (st : PluginState) (body : List Stmt) : List Stmt :=
  if st.mocks.isEmpty ∨ st.importIdentifiers.isEmpty then body
  else
    st.importIdentifiers.foldl
      (fun body kv =>
        if st.existingJestMocks.contains kv.1 then body
        else
          let mocksForModule := buildMocksForModule st kv.2
          if mocksForModule.isEmpty then body
          else buildJestMockForModule kv.1 mocksForModule :: body)
      body

/-- The state set up by `pre`. -/
def initState : PluginState := ⟨[], [], []⟩

/-- The whole per-file transformation: traverse the body (collecting state
and removing mock-request call statements), then run `post`.  The directive
prologue lives on the Babel `Program` node outside `body`, so the unshifted
registrations land after it. -/
def transformFile (p : Program) : Program :=
  let traversed := traverseStmts initState p.body
  { directives := p.directives, body := post traversed.1 traversed.2 }

/-! ## Derived and specification-side definitions -/

/-- The registration statement `jest.mock(path, () => ...)` with the given
factory object properties, as built by `buildJestMockForModule`. -/
def registrationStmt (path : String) (props : List (String × Expr)) : Stmt :=
  .exprStmt (.call (.member (.ident globalJestIdentifier) (.ident "mock") false)
    [.stringLit path, .arrowFactory props])

/-- The modules for which `post` emits a registration, in iteration order of
`importIdentifiers`, with the factory properties it builds for each.
`post_eq_emittedModules` proves this is exactly what `post` unshifts. -/
def emittedModules (st : PluginState) : List (String × List (String × Expr)) :=
  if st.mocks.isEmpty ∨ st.importIdentifiers.isEmpty then []
  else
    st.importIdentifiers.filterMap
      (fun kv =>
        if st.existingJestMocks.contains kv.1 then none
        else
          let mocksForModule := buildMocksForModule st kv.2
          if mocksForModule.isEmpty then none
          else some (kv.1, createModuleMockImpl mocksForModule))

mutual

/-- The module paths recorded into `existingJestMocks` by the ignore branch
of the `CallExpression` visitor while traversing one statement, in visit
order: calls whose callee matches an ignore pattern (and is not a
mock-request pattern) and whose first argument is a string literal. -/
def ignoresOfStmt : Stmt → List String
  | .exprStmt (.call callee args) =>
      (match isMockObjCallExpession callee with
       | some _ => []
       | none =>
          if isJestMockCallExpression callee then
            match args with
            | .stringLit v :: _ => [v]
            | _ => []
          else [])
  | .funcDecl _ body => ignoresOfStmts body
  | _ => []
termination_by structural s => s

/-- `ignoresOfStmt` over a statement list. -/
def ignoresOfStmts : List Stmt → List String
  | [] => []
  | s :: rest => ignoresOfStmt s ++ ignoresOfStmts rest
termination_by structural l => l

end

/-- A statement nested inside `n` scopes. -/
def nestStmt : Nat → Stmt → Stmt
  | 0, s => s
  | n + 1, s => .funcDecl "wrapper" [nestStmt n s]

/-- What remains of `nestStmt n s` after the innermost statement is removed:
nothing at depth 0, otherwise the emptied shells. -/
def removedShell : Nat → Option Stmt
  | 0 => none
  | n + 1 => some (.funcDecl "wrapper" ((removedShell n).toList))

/-- A plain member-access chain `root.s1.s2...sn` (the only argument shape
the specification calls valid). -/
def mkChain (root : String) (segs : List String) : Expr :=
  segs.foldl (fun e s => .member e (.ident s) false) (.ident root)

/-- The innermost base of a member-expression chain. -/
def chainBase : Expr → Expr
  | .member o _ _ => chainBase o
  | e => e

/-- The argument shapes `createMockDefinition` ignores: anything that is
neither an identifier nor a member expression, a member expression whose
outermost property is not an identifier, a chain whose innermost base is
not an identifier, and JS-falsy (empty) root or final names.  Note this
predicate never consults the `computed` flag and never looks at
intermediate properties. -/
def invalidShape : Expr → Bool
  | .ident n => n = ""
  | .member o p _ =>
      (match p with
       | .ident pn =>
          pn = "" ||
            (match chainBase o with
             | .ident bn => bn = ""
             | _ => true)
       | _ => true)
  | _ => true

/-- JS object-literal evaluation of a property list: later duplicate keys
overwrite earlier ones, a key's position is its first occurrence (exactly
the semantics of JS property assignment, i.e. iterated `mapSet`). -/
def dedupLast (props : List (String × Expr)) : List (String × Expr) :=
  props.foldl (fun acc kv => mapSet acc kv.1 kv.2) []

/-- Normalise an expression by evaluating a top-level object literal's
duplicate keys; other expressions are untouched. -/
def normalizeObj : Expr → Expr
  | .objectExpr ps => .objectExpr (dedupLast ps)
  | e => e

/-- The running value of the specification's in-order replay: either a flat
replacement or a nested mapping of sub-keys. -/
inductive SpecValue where
  | flat (e : Expr)
  | nested (m : List (String × Expr))

/-- One step of the replay exactly as the specification words it: a
no-sub-key entry resets to flat, discarding nested accumulation; a
with-sub-key entry converts to nested — preserving sub-keys only if the
running value is already nested — and sets/overwrites that sub-key. -/
def specReplayStep (s : SpecValue) (m : MockEntry) : SpecValue :=
  match m.subProperty with
  | none => .flat m.expression
  | some k =>
      let base := match s with
        | .nested mp => mp
        | .flat _ => []
      .nested (mapSet base k m.expression)

/-- The specification's in-order replay of a key's entries. -/
def specReplay (entries : List MockEntry) : SpecValue :=
  entries.foldl specReplayStep (.nested [])

/-- One step of the amended replay, matching the code: a with-sub-key entry
also adopts the properties of a flat running value that happens to be an
object literal, and an empty-string sub-key (JS-falsy) acts like a
no-sub-key entry. -/
def amendedReplayStep (s : SpecValue) (m : MockEntry) : SpecValue :=
  match m.subProperty with
  | none => .flat m.expression
  | some k =>
      if k = "" then .flat m.expression
      else
        let base := match s with
          | .nested mp => mp
          | .flat (.objectExpr ps) => dedupLast ps
          | .flat _ => []
        .nested (mapSet base k m.expression)

/-- The amended in-order replay of a key's entries. -/
def amendedReplay (entries : List MockEntry) : SpecValue :=
  entries.foldl amendedReplayStep (.nested [])

/-- Realise a replay result as the (normalised) emitted expression. -/
def specToExpr : SpecValue → Expr
  | .flat e => normalizeObj e
  | .nested m => .objectExpr m

/-- The value `createModuleMockImpl` emits for one export key (either the
last flat entry or the replayed nested value); used to factor the fold. -/
def keyValue (mocks : List MockEntry) : Expr :=
  if mocks.all (fun m => subPropFalsy m.subProperty) then
    match mocks.getLast? with
    | some lastMock => lastMock.expression
    | none => .objectExpr []
  else resolveKeyValue mocks

/-- The optional factory property contributed by one export key. -/
def keyProp (kv : String × List MockEntry) : Option (String × Expr) :=
  if kv.2.isEmpty then none else some (kv.1, keyValue kv.2)

/-- The `jest.fn().mockName("path")` expression the specification describes
for `FunctionMock` defaults (the shape built by the later evolution of the
plugin); the code under verification emits a bare `jest.fn()` instead. -/
def taggedMockFn (path : String) : Expr :=
  .call (.member (.call (.member (.ident "jest") (.ident "fn") false) []) (.ident "mockName") false)
    [.stringLit path]

/-! ### Concrete inputs used by counterexamples and witnesses -/

/-- `jest.<m>` callee. -/
def jestCallee (m : String) : Expr := .member (.ident "jest") (.ident m) false

/-- The two-level member chain `r.a.b`. -/
def chain2 (r a b : String) : Expr :=
  .member (.member (.ident r) (.ident a) false) (.ident b) false

/-- `import { B } from "b"; jest.mockObj(B.x.y);` — the only request is too
deep for a named binding. -/
def fileDeepNamed : Program :=
  ⟨[], [.importDecl "b" [.namedSpec "B" "B"],
        .exprStmt (.call (jestCallee "mockObj") [chain2 "B" "x" "y"])]⟩

/-- `import A from "a"; jest.mockObj(A.x.y);` — the only request is too deep
for a default binding. -/
def fileDeepDefault : Program :=
  ⟨[], [.importDecl "a" [.defaultSpec "A"],
        .exprStmt (.call (jestCallee "mockObj") [chain2 "A" "x" "y"])]⟩

/-- `import A from "a";` with no requests at all. -/
def fileDeepDefaultBaseline : Program :=
  ⟨[], [.importDecl "a" [.defaultSpec "A"]]⟩

/-- `import { A } from "a"; import { B } from "b"; jest.mockObj(A, B);` —
two modules, first imported in the order a, b. -/
def fileTwoModules : Program :=
  ⟨[], [.importDecl "a" [.namedSpec "A" "A"],
        .importDecl "b" [.namedSpec "B" "B"],
        .exprStmt (.call (jestCallee "mockObj") [.ident "A", .ident "B"])]⟩

/-- Entry sequence for one export key: a flat replacement that is an object
literal, followed by a sub-key entry. -/
def flatObjectThenSub : List MockEntry :=
  [⟨.objectExpr [("x", .stringLit "1")], none⟩, ⟨.stringLit "v", some "s"⟩]

/-- `import { A } from "a"; jest.mockObj(A); jest.mock("a");` — an ignore
call after the request. -/
def fileIgnoreAfter : Program :=
  ⟨[], [.importDecl "a" [.namedSpec "A" "A"],
        .exprStmt (.call (jestCallee "mockObj") [.ident "A"]),
        .exprStmt (.call (jestCallee "mock") [.stringLit "a"])]⟩

/-- A state whose single module binding has a recorded-but-empty request
list (witness input for the amended C1). -/
def stateNoRequests : PluginState :=
  ⟨[("m", [⟨"A", .importTy⟩])], [("A", [])], []⟩

/-- The simulation relation between the code's running `prop.value` and the
replay state: a flat state is the value itself, a nested state is the
object-literal evaluation of the accumulated properties. -/
def ReplayRel (v : Expr) : SpecValue → Prop
  | .flat e => v = e
  | .nested m => ∃ ps, v = .objectExpr ps ∧ dedupLast ps = m

/-- A `ModuleMockDefinition` with two flat requests against the same export
key (witness input for last-write-wins). -/
def twoFlatRequests : List (String × List MockEntry) :=
  [("K", [⟨.stringLit "one", none⟩, ⟨.stringLit "two", none⟩])]

/-! ## Supporting lemmas -/

theorem mapGet_cons {α : Type} (hd : String × α) (tl : List (String × α)) (key : String) :
    mapGet (hd :: tl) key = if hd.1 = key then some hd.2 else mapGet tl key := by
  by_cases h : hd.1 = key <;> simp [mapGet, List.find?, h]

theorem mapGet_mapSet_self {α : Type} (m : List (String × α)) (k : String) (v : α) :
    mapGet (mapSet m k v) k = some v := by
  induction m with
  | nil => simp [mapSet, mapGet, List.find?]
  | cons hd tl ih =>
      by_cases h : hd.1 = k
      · simp [mapSet, List.any_cons, h, mapGet_cons]
      · by_cases h2 : tl.any (fun p => p.1 = k)
        · have h3 : mapGet (List.map (fun p => if p.1 = k then (k, v) else p) tl) k = some v := by
            simpa [mapSet, h2] using ih
          rw [mapSet, if_pos (by simp [List.any_cons, h2]), List.map_cons, if_neg h,
            mapGet_cons]
          simpa [h] using h3
        · have h3 : mapGet (tl ++ [(k, v)]) k = some v := by
            simpa [mapSet, h2] using ih
          rw [mapSet, if_neg (by simp [List.any_cons, h, h2]), List.cons_append,
            mapGet_cons]
          simpa [h] using h3

theorem dedupLast_append_single (ps : List (String × Expr)) (k : String) (v : Expr) :
    dedupLast (ps ++ [(k, v)]) = mapSet (dedupLast ps) k v := by
  simp [dedupLast, List.foldl_append]

theorem createMockDefinition_existing (st : PluginState) (d : Expr) (ty : MockType)
    (impl : Option Expr) :
    (createMockDefinition st d ty impl).existingJestMocks = st.existingJestMocks := by
  unfold createMockDefinition
  split
  · split <;> rfl
  · rfl

theorem createMockDefinition_imports (st : PluginState) (d : Expr) (ty : MockType)
    (impl : Option Expr) :
    (createMockDefinition st d ty impl).importIdentifiers = st.importIdentifiers := by
  unfold createMockDefinition
  split
  · split <;> rfl
  · rfl

theorem foldl_createMockDefinition_existing (args : List Expr) (st : PluginState)
    (ty : MockType) :
    (args.foldl (fun s arg => createMockDefinition s arg ty none) st).existingJestMocks
      = st.existingJestMocks := by
  induction args generalizing st with
  | nil => rfl
  | cons a rest ih => simp [List.foldl_cons, ih, createMockDefinition_existing]

theorem visitImportDeclaration_existing (st : PluginState) (source : String)
    (specs : List ImportSpec) :
    (visitImportDeclaration st source specs).existingJestMocks = st.existingJestMocks := by
  unfold visitImportDeclaration
  split <;> rfl

theorem visitCallExpression_existing (st : PluginState) (e : Expr) :
    (visitCallExpression st e).1.existingJestMocks
      = st.existingJestMocks ++ ignoresOfStmt (.exprStmt e) := by
  cases e <;> simp [visitCallExpression, ignoresOfStmt]
  case call callee args =>
    cases hty : isMockObjCallExpession callee with
    | some ty =>
        simp [hty]
        split
        · split
          · exact createMockDefinition_existing ..
          · rfl
        · exact foldl_createMockDefinition_existing ..
    | none =>
        by_cases hjm : isJestMockCallExpression callee
        · cases args with
          | nil => simp [hty, hjm]
          | cons a rest => cases a <;> simp [hty, hjm]
        · simp [hty, hjm]

mutual

theorem traverseStmt_existing (st : PluginState) (s : Stmt) :
    (traverseStmt st s).1.existingJestMocks
      = st.existingJestMocks ++ ignoresOfStmt s := by
  cases s with
  | exprStmt e => simpa [traverseStmt] using visitCallExpression_existing st e
  | importDecl src specs =>
      simp [traverseStmt, ignoresOfStmt, visitImportDeclaration_existing]
  | funcDecl n body =>
      simpa [traverseStmt, ignoresOfStmt] using traverseStmts_existing st body
  | otherStmt t => simp [traverseStmt, ignoresOfStmt]
termination_by structural s

theorem traverseStmts_existing (st : PluginState) (l : List Stmt) :
    (traverseStmts st l).1.existingJestMocks
      = st.existingJestMocks ++ ignoresOfStmts l := by
  cases l with
  | nil => simp [traverseStmts, ignoresOfStmts]
  | cons s rest =>
      have h1 := traverseStmt_existing st s
      have h2 := traverseStmts_existing (traverseStmt st s).1 rest
      simp [traverseStmts, ignoresOfStmts, h2, h1, List.append_assoc]
termination_by structural l

end

theorem traverseStmts_append (st : PluginState) (xs ys : List Stmt) :
    traverseStmts st (xs ++ ys) =
      ((traverseStmts (traverseStmts st xs).1 ys).1,
        (traverseStmts st xs).2 ++ (traverseStmts (traverseStmts st xs).1 ys).2) := by
  induction xs generalizing st with
  | nil => simp [traverseStmts]
  | cons s rest ih =>
      rw [List.cons_append]
      show traverseStmts st (s :: (rest ++ ys)) = _
      rw [traverseStmts, traverseStmts, ih]
      cases (traverseStmt st s).2 <;> simp

theorem mem_foldl_of_step {α β : Type} (step : List α → β → List α)
    (hstep : ∀ b kv x, x ∈ b → x ∈ step b kv) (l : List β) (acc : List α) (x : α)
    (h : x ∈ acc) : x ∈ l.foldl step acc := by
  induction l generalizing acc with
  | nil => exact h
  | cons hd tl ih => exact ih _ (hstep _ _ _ h)

theorem mem_post_of_mem (st : PluginState) (body : List Stmt) (x : Stmt)
    (h : x ∈ body) : x ∈ post st body := by
  unfold post
  split
  · exact h
  · refine mem_foldl_of_step _ ?_ _ _ _ h
    intro b kv y hy
    dsimp only
    split
    · exact hy
    · split
      · exact hy
      · exact List.mem_cons_of_mem _ hy

theorem foldl_prepend_filterMap {α β γ : Type} (sel : β → Option γ) (g : γ → α)
    (l : List β) (acc : List α) :
    l.foldl (fun b kv => match sel kv with | none => b | some c => g c :: b) acc
      = (l.filterMap sel).foldl (fun b c => g c :: b) acc := by
  induction l generalizing acc with
  | nil => rfl
  | cons hd tl ih =>
      rw [List.foldl_cons, List.filterMap_cons]
      cases sel hd with
      | none => exact ih acc
      | some c => rw [List.foldl_cons]; exact ih _

theorem post_eq_emittedModules (st : PluginState) (body : List Stmt) :
    post st body =
      (emittedModules st).foldl
        (fun b kv => registrationStmt kv.1 kv.2 :: b) body := by
  unfold post emittedModules
  split
  · simp
  · rw [← foldl_prepend_filterMap
        (fun kv => if st.existingJestMocks.contains kv.1 then none
          else
            let mocksForModule := buildMocksForModule st kv.2
            if mocksForModule.isEmpty then none
            else some (kv.1, createModuleMockImpl mocksForModule))
        (fun pr => registrationStmt pr.1 pr.2) st.importIdentifiers body]
    apply List.foldl_ext
    intro b kv _
    by_cases h1 : kv.1 ∈ st.existingJestMocks
    · simp [h1]
    · by_cases h2 : (buildMocksForModule st kv.2).isEmpty
      · simp [h1, h2]
      · simp [h1, h2, buildJestMockForModule, registrationStmt]

theorem not_emitted_of_existing (st : PluginState) (M : String)
    (h : M ∈ st.existingJestMocks) :
    ∀ e ∈ emittedModules st, e.1 ≠ M := by
  intro e he
  unfold emittedModules at he
  split at he
  · simp at he
  · obtain ⟨kv, _, heq⟩ := List.mem_filterMap.mp he
    by_cases h1 : kv.1 ∈ st.existingJestMocks
    · simp [h1] at heq
    · by_cases h2 : (buildMocksForModule st kv.2).isEmpty
      · simp [h1, h2] at heq
      · simp [h1, h2] at heq
        intro hme
        apply h1
        have hkv : kv.1 = e.1 := by
          cases heq
          rfl
        rw [hkv, hme]
        exact h

theorem ignore_not_mockObj (c : Expr) (h : isJestMockCallExpression c = true) :
    isMockObjCallExpession c = none := by
  cases c with
  | ident n => simp [isJestMockCallExpression] at h
  | member o p cm =>
      cases o with
      | ident obn =>
          cases p with
          | ident pn =>
              simp [isJestMockCallExpression, jestMockCallExpressions,
                globalJestIdentifier] at h
              obtain ⟨ho, hp⟩ := h
              subst ho
              rcases hp with rfl | rfl | rfl | rfl <;> rfl
          | member a b c2 => simp [isJestMockCallExpression] at h
          | stringLit s => simp [isJestMockCallExpression] at h
          | call a b => simp [isJestMockCallExpression] at h
          | objectExpr ps => simp [isJestMockCallExpression] at h
          | arrowFactory ps => simp [isJestMockCallExpression] at h
          | lit t => simp [isJestMockCallExpression] at h
      | member a b c2 => simp [isJestMockCallExpression] at h
      | stringLit s => simp [isJestMockCallExpression] at h
      | call a b => simp [isJestMockCallExpression] at h
      | objectExpr ps => simp [isJestMockCallExpression] at h
      | arrowFactory ps => simp [isJestMockCallExpression] at h
      | lit t => simp [isJestMockCallExpression] at h
  | stringLit s => simp [isJestMockCallExpression] at h
  | call a b => simp [isJestMockCallExpression] at h
  | objectExpr ps => simp [isJestMockCallExpression] at h
  | arrowFactory ps => simp [isJestMockCallExpression] at h
  | lit t => simp [isJestMockCallExpression] at h

theorem visitCallExpression_ignore (st : PluginState) (callee : Expr) (args : List Expr)
    (v : String) (hjm : isJestMockCallExpression callee = true)
    (hargs : args.head? = some (.stringLit v)) :
    visitCallExpression st (.call callee args) =
      ({ st with existingJestMocks := st.existingJestMocks ++ [v] }, false) := by
  obtain ⟨rest, rfl⟩ : ∃ rest, args = .stringLit v :: rest := by
    cases args with
    | nil => simp at hargs
    | cons a rest =>
        refine ⟨rest, ?_⟩
        simp only [List.head?_cons, Option.some.injEq] at hargs
        rw [hargs]
  simp [visitCallExpression, ignore_not_mockObj callee hjm, hjm]

theorem visitCallExpression_mockObj_removes (st : PluginState) (callee : Expr)
    (args : List Expr) (ty : MockType) (h : isMockObjCallExpession callee = some ty) :
    (visitCallExpression st (.call callee args)).2 = true := by
  simp [visitCallExpression, h]

theorem collectSubProps_fst (o : Expr) (acc : List String) :
    (collectSubProps o acc).1 = chainBase o := by
  cases o with
  | member oo p c => simpa [collectSubProps, chainBase] using collectSubProps_fst oo _
  | ident n => simp [collectSubProps, chainBase]
  | stringLit s => simp [collectSubProps, chainBase]
  | call c a => simp [collectSubProps, chainBase]
  | objectExpr ps => simp [collectSubProps, chainBase]
  | arrowFactory ps => simp [collectSubProps, chainBase]
  | lit t => simp [collectSubProps, chainBase]
termination_by structural o

theorem collectSubProps_foldl (segs : List String) (b : Expr) (acc : List String) :
    collectSubProps (segs.foldl (fun e s => .member e (.ident s) false) b) acc
      = collectSubProps b (segs ++ acc) := by
  induction segs generalizing b acc with
  | nil => simp
  | cons s rest ih =>
      rw [List.foldl_cons]
      rw [ih (.member b (.ident s) false) acc]
      simp [collectSubProps]

theorem collectSubProps_mkChain (root : String) (segs : List String) :
    collectSubProps (mkChain root segs) [] = (.ident root, segs) := by
  have := collectSubProps_foldl segs (.ident root) []
  simpa [mkChain, collectSubProps] using this

theorem createModuleMockImpl_eq_filterMap (d : List (String × List MockEntry)) :
    createModuleMockImpl d = d.filterMap keyProp := by
  have h : ∀ (l : List (String × List MockEntry)) (acc : List (String × Expr)),
      l.foldl
        (fun topLevelProps kv =>
          let mocks := kv.2
          if mocks.isEmpty then topLevelProps
          else if mocks.all (fun m => subPropFalsy m.subProperty) then
            match mocks.getLast? with
            | some lastMock => topLevelProps ++ [(kv.1, lastMock.expression)]
            | none => topLevelProps
          else
            topLevelProps ++ [(kv.1, resolveKeyValue mocks)])
        acc = acc ++ l.filterMap keyProp := by
    intro l
    induction l with
    | nil => simp
    | cons hd tl ih =>
        intro acc
        rw [List.foldl_cons, List.filterMap_cons]
        rcases hd with ⟨k, mocks⟩
        cases mocks with
        | nil => simpa [keyProp] using ih acc
        | cons m ms =>
            have hne : m :: ms ≠ ([] : List MockEntry) := by simp
            have hlast : (m :: ms).getLast? = some ((m :: ms).getLast hne) :=
              List.getLast?_eq_getLast _ hne
            by_cases hall : (m :: ms).all (fun m => subPropFalsy m.subProperty)
            · dsimp only
              rw [if_neg (by simp), if_pos hall, hlast, ih]
              simp [keyProp, keyValue, hall, hlast]
            · dsimp only
              rw [if_neg (by simp), if_neg hall, ih]
              simp [keyProp, keyValue, hall]
  simpa [createModuleMockImpl] using h d []

theorem buildMocksForModule_of_no_requests (st : PluginState)
    (imports : List ImportDefinition)
    (h : ∀ i ∈ imports, (mapGet st.mocks i.name).getD [] = []) :
    buildMocksForModule st imports = [] := by
  have haux : ∀ (l : List ImportDefinition),
      (∀ i ∈ l, (mapGet st.mocks i.name).getD [] = []) →
      ∀ acc, l.foldl (aggregateBinding st) acc = acc := by
    intro l hl
    induction l with
    | nil => intro acc; rfl
    | cons i rest ih =>
        intro acc
        rw [List.foldl_cons]
        have hi := hl i (by simp)
        have hstep : aggregateBinding st acc i = acc := by
          cases hm : mapGet st.mocks i.name with
          | none => simp [aggregateBinding, hm]
          | some l2 =>
              have hl2 : l2 = [] := by simpa [hm] using hi
              subst hl2
              simp [aggregateBinding, hm]
        rw [hstep]
        exact ih (fun j hj => hl j (by simp [hj])) acc
  exact haux imports h []

theorem replayRel_step (v : Expr) (s : SpecValue) (m : MockEntry)
    (h : ReplayRel v s) :
    ReplayRel (resolveKeyStep v m) (amendedReplayStep s m) := by
  cases hm : m.subProperty with
  | none => simp [resolveKeyStep, amendedReplayStep, hm, ReplayRel]
  | some k =>
      by_cases hk : k = ""
      · subst hk
        simp [resolveKeyStep, amendedReplayStep, hm, ReplayRel]
      · cases s with
        | flat e =>
            have hv : v = e := h
            subst hv
            cases v with
            | objectExpr ps =>
                simp only [resolveKeyStep, amendedReplayStep, hm, if_neg hk]
                exact ⟨ps ++ [(k, m.expression)], rfl, dedupLast_append_single ps k m.expression⟩
            | ident n =>
                simp only [resolveKeyStep, amendedReplayStep, hm, if_neg hk]
                exact ⟨[(k, m.expression)], rfl, rfl⟩
            | member o p c =>
                simp only [resolveKeyStep, amendedReplayStep, hm, if_neg hk]
                exact ⟨[(k, m.expression)], rfl, rfl⟩
            | stringLit str =>
                simp only [resolveKeyStep, amendedReplayStep, hm, if_neg hk]
                exact ⟨[(k, m.expression)], rfl, rfl⟩
            | call c a =>
                simp only [resolveKeyStep, amendedReplayStep, hm, if_neg hk]
                exact ⟨[(k, m.expression)], rfl, rfl⟩
            | arrowFactory ps =>
                simp only [resolveKeyStep, amendedReplayStep, hm, if_neg hk]
                exact ⟨[(k, m.expression)], rfl, rfl⟩
            | lit t =>
                simp only [resolveKeyStep, amendedReplayStep, hm, if_neg hk]
                exact ⟨[(k, m.expression)], rfl, rfl⟩
        | nested mp =>
            obtain ⟨ps, rfl, hd⟩ := h
            simp only [resolveKeyStep, amendedReplayStep, hm, if_neg hk]
            exact ⟨ps ++ [(k, m.expression)], rfl, by
              rw [dedupLast_append_single, hd]⟩

theorem replayRel_foldl (entries : List MockEntry) (v : Expr) (s : SpecValue)
    (h : ReplayRel v s) :
    ReplayRel (entries.foldl resolveKeyStep v) (entries.foldl amendedReplayStep s) := by
  induction entries generalizing v s with
  | nil => exact h
  | cons m rest ih => exact ih _ _ (replayRel_step v s m h)

theorem bindingEntryStep_keep (arr : List MockEntry) (m : MockDefinition)
    (h : m.subProperties.length ≤ 1) :
    bindingEntryStep arr m = arr ++ [⟨m.expression, m.subProperties.get? 0⟩] := by
  unfold bindingEntryStep
  rw [if_neg (by omega)]

theorem bindingEntryStep_skip (arr : List MockEntry) (m : MockDefinition)
    (h : m.subProperties.length > 1) :
    bindingEntryStep arr m = arr := by
  unfold bindingEntryStep
  rw [if_pos h]

theorem namespaceStep_skip (acc : List (String × List MockEntry)) (m : MockDefinition)
    (h : ¬(m.subProperties.length = 1 ∨ m.subProperties.length = 2)) :
    namespaceStep acc m = acc := by
  unfold namespaceStep
  rw [if_neg h]

/-! ## Claim theorems -/

/-- C2 (counterexample): the spec's in-order replay is refuted by a flat
entry whose replacement is itself an object literal followed by a
with-sub-key entry: the replay discards the object literal's own properties
(`x` below), while `createModuleMockImpl` keeps them and appends the
sub-key, so the resolved values differ. -/
theorem c2_counterexample :
    normalizeObj (resolveKeyValue flatObjectThenSub)
      ≠ specToExpr (specReplay flatObjectThenSub) := by
  have h1 : normalizeObj (resolveKeyValue flatObjectThenSub)
      = .objectExpr [("x", .stringLit "1"), ("s", .stringLit "v")] := rfl
  have h2 : specToExpr (specReplay flatObjectThenSub)
      = .objectExpr [("s", .stringLit "v")] := rfl
  rw [h1, h2]
  intro h
  have hlen := congrArg
    (fun e => match e with | Expr.objectExpr ps => ps.length | _ => 0) h
  simp at hlen

/-- C2 (amended): for every export key and every ordered entry sequence the
emitted value, read as a JS object literal (duplicate keys last-write-wins),
is computed by in-order replay, provided the replay also lets a
with-sub-key entry adopt the properties of a flat replacement that is itself
an object literal (and treats an empty sub-key, which is JS-falsy, as a flat
entry). -/
theorem c2_amended_replay (entries : List MockEntry) :
    normalizeObj (resolveKeyValue entries) = specToExpr (amendedReplay entries) := by
  have h := replayRel_foldl entries (.objectExpr []) (.nested []) ⟨[], rfl, rfl⟩
  unfold resolveKeyValue amendedReplay
  cases hs : entries.foldl amendedReplayStep (.nested []) with
  | flat e =>
      rw [hs] at h
      have hv : entries.foldl resolveKeyStep (.objectExpr []) = e := h
      rw [hv]
      rfl
  | nested m =>
      rw [hs] at h
      obtain ⟨ps, hps, hd⟩ := h
      rw [hps]
      show Expr.objectExpr (dedupLast ps) = Expr.objectExpr m
      rw [hd]

/-- C4 (code bug): with modules first imported in the order `a`, `b`, the
registration calls are unshifted one by one, so they end up in the output
in the order `b`, `a` — the reverse of first-import order, contradicting
the claim (and the repository README, whose examples show the registrations
in import order).  The registrations do precede all original body
statements, and the directive prologue is a separate field of the program
node, so that part of the claim holds. -/
theorem c4_insertion_order_reversed :
    transformFile fileTwoModules =
      ⟨[], [registrationStmt "b" [("B", .stringLit "B")],
            registrationStmt "a" [("A", .stringLit "A")],
            .importDecl "a" [.namedSpec "A" "A"],
            .importDecl "b" [.namedSpec "B" "B"]]⟩ := rfl

/-- C7 (counterexample): a request with two segments under a Default binding
(`jest.mockObj(A.x.y)` for default-imported `A`) is dropped from the
factory, but not without effect on the output: its module still receives a
registration call with an empty factory, which the same file without the
request does not receive. -/
theorem c7_counterexample :
    transformFile fileDeepDefault =
      ⟨[], [registrationStmt "a" [], .importDecl "a" [.defaultSpec "A"]]⟩ ∧
    transformFile fileDeepDefaultBaseline =
      ⟨[], [.importDecl "a" [.defaultSpec "A"]]⟩ :=
  ⟨rfl, rfl⟩

/-- C7 (amended): requests with two or more segments under a Default/Named
binding, and Namespace requests with zero or three or more segments, are
dropped from the aggregation — they contribute no export entry or sub-key.
(A dropped Default/Named request still causes its binding's export key to be
registered, which can produce an empty factory; see the counterexample.) -/
theorem c7_amended_depth_limit :
    (∀ (ms : List MockDefinition) (arr : List MockEntry),
      ms.foldl bindingEntryStep arr =
        arr ++ (ms.filter (fun m => m.subProperties.length ≤ 1)).map
          (fun m => ⟨m.expression, m.subProperties.get? 0⟩)) ∧
    (∀ (ms : List MockDefinition) (acc : List (String × List MockEntry)),
      ms.foldl namespaceStep acc =
        (ms.filter (fun m =>
          m.subProperties.length = 1 ∨ m.subProperties.length = 2)).foldl
          namespaceStep acc) := by
  constructor
  · intro ms
    induction ms with
    | nil => simp
    | cons m rest ih =>
        intro arr
        rw [List.foldl_cons, List.filter_cons]
        by_cases hlen : m.subProperties.length ≤ 1
        · rw [bindingEntryStep_keep arr m hlen, ih]
          simp [hlen]
        · rw [bindingEntryStep_skip arr m (by omega), ih]
          simp [hlen]
  · intro ms
    induction ms with
    | nil => simp
    | cons m rest ih =>
        intro acc
        rw [List.foldl_cons, List.filter_cons]
        by_cases hc : m.subProperties.length = 1 ∨ m.subProperties.length = 2
        · rw [if_pos (decide_eq_true hc), List.foldl_cons]
          exact ih (namespaceStep acc m)
        · rw [namespaceStep_skip acc m hc, if_neg (by simp [hc])]
          exact ih acc

theorem push_mock_ne (st : PluginState) (root : String) (x : MockDefinition) :
    { st with mocks := mapSet st.mocks root ((mapGet st.mocks root).getD [] ++ [x]) }
      ≠ st := by
  intro h
  have hm := congrArg PluginState.mocks h
  dsimp at hm
  have hself := mapGet_mapSet_self st.mocks root ((mapGet st.mocks root).getD [] ++ [x])
  rw [hm] at hself
  cases hg : mapGet st.mocks root with
  | none => rw [hg] at hself; simp at hself
  | some l =>
      rw [hg] at hself
      simp only [Option.getD_some, Option.some.injEq] at hself
      have := congrArg List.length hself
      simp at this

/-- C1 (counterexample): `import { B } from "b"; jest.mockObj(B.x.y);` —
the single request is dropped for depth, so the module has zero resolvable
export entries, yet a registration call with an empty factory is inserted
for `"b"`. -/
theorem c1_counterexample :
    transformFile fileDeepNamed =
      ⟨[], [registrationStmt "b" [], .importDecl "b" [.namedSpec "B" "B"]]⟩ := rfl

/-- C1 (amended): a module none of whose import bindings has any recorded
mock request receives no registration call.  (A Default/Named binding with
at least one recorded request registers its export key even when every
request is dropped for depth, so such a module still receives a
registration with an empty factory — see the counterexample.) -/
theorem c1_amended_no_requests_no_registration (st : PluginState) (p : String)
    (h : ∀ kv ∈ st.importIdentifiers, kv.1 = p →
      ∀ i ∈ kv.2, (mapGet st.mocks i.name).getD [] = []) :
    ∀ e ∈ emittedModules st, e.1 ≠ p := by
  intro e he hep
  unfold emittedModules at he
  split at he
  · simp at he
  · obtain ⟨kv, hkvmem, heq⟩ := List.mem_filterMap.mp he
    by_cases h1 : kv.1 ∈ st.existingJestMocks
    · simp [h1] at heq
    · by_cases h2 : (buildMocksForModule st kv.2).isEmpty
      · simp [h1, h2] at heq
      · simp [h1, h2] at heq
        have hkv1 : kv.1 = e.1 := by
          cases heq
          rfl
        have hreq := h kv hkvmem (by rw [hkv1, hep])
        have hnil := buildMocksForModule_of_no_requests st kv.2 hreq
        rw [hnil] at h2
        simp at h2

/-- Witness for the amended C1 at a concrete state. -/
theorem c1_amended_witness :
    (∀ kv ∈ stateNoRequests.importIdentifiers, kv.1 = "m" →
      ∀ i ∈ kv.2, (mapGet stateNoRequests.mocks i.name).getD [] = []) ∧
    (∀ e ∈ emittedModules stateNoRequests, e.1 ≠ "m") := by
  have hhyp : ∀ kv ∈ stateNoRequests.importIdentifiers, kv.1 = "m" →
      ∀ i ∈ kv.2, (mapGet stateNoRequests.mocks i.name).getD [] = [] := by
    intro kv hkv _ i hi
    simp [stateNoRequests] at hkv
    subst hkv
    simp at hi
    subst hi
    rfl
  exact ⟨hhyp, c1_amended_no_requests_no_registration stateNoRequests "m" hhyp⟩

/-- C3: an ignore call for module `M` anywhere in the file (before or after
the mock requests, at any nesting depth) suppresses every registration for
`M`: the transformed file's body is the traversed body with exactly the
`emittedModules` registrations prepended, and none of them has path `M`. -/
theorem c3_ignore_suppresses_module (p : Program) (M : String)
    (h : M ∈ ignoresOfStmts p.body) :
    (∀ e ∈ emittedModules (traverseStmts initState p.body).1, e.1 ≠ M) ∧
    (transformFile p).body =
      (emittedModules (traverseStmts initState p.body).1).foldl
        (fun b kv => registrationStmt kv.1 kv.2 :: b)
        (traverseStmts initState p.body).2 := by
  constructor
  · apply not_emitted_of_existing
    rw [traverseStmts_existing]
    simpa [initState] using h
  · unfold transformFile
    exact post_eq_emittedModules _ _

/-- Witness for C3: the ignore call appears after the mock request. -/
theorem c3_witness :
    ("a" ∈ ignoresOfStmts fileIgnoreAfter.body) ∧
    ((∀ e ∈ emittedModules (traverseStmts initState fileIgnoreAfter.body).1, e.1 ≠ "a") ∧
      (transformFile fileIgnoreAfter).body =
        (emittedModules (traverseStmts initState fileIgnoreAfter.body).1).foldl
          (fun b kv => registrationStmt kv.1 kv.2 :: b)
          (traverseStmts initState fileIgnoreAfter.body).2) :=
  ⟨by decide, c3_ignore_suppresses_module fileIgnoreAfter "a" (by decide)⟩

/-- C5 (counterexample): a computed (bracket) access `X[y]` with an
identifier key is not ignored — `createMockDefinition` records a mock
request for it exactly as for `X.y`, refuting the claim that any
computed/bracket access resolves to invalid and contributes no request. -/
theorem c5_counterexample :
    (createMockDefinition initState (.member (.ident "X") (.ident "y") true) .name none).mocks
      = [("X", [⟨["y"], .stringLit "y"⟩])] ∧
    createMockDefinition initState (.member (.ident "X") (.ident "y") true) .name none
      ≠ initState := by
  refine ⟨rfl, ?_⟩
  intro h
  have h2 := congrArg PluginState.mocks h
  rw [show (createMockDefinition initState (.member (.ident "X") (.ident "y") true)
      .name none).mocks = [("X", [⟨["y"], .stringLit "y"⟩])] from rfl] at h2
  simp [initState] at h2

/-- C5 (amended): an argument is ignored (leaves the state unchanged)
exactly when it is neither an identifier nor a member expression, when the
outermost member property is not an identifier, when the innermost base of
the chain is not an identifier, or when the root or final name is the empty
string (JS-falsy).  The `computed` flag is never consulted, and a
non-identifier property at an intermediate chain level is skipped rather
than invalidating the argument. -/
theorem c5_amended_invalid_shapes (st : PluginState) (d : Expr) (ty : MockType)
    (impl : Option Expr) :
    createMockDefinition st d ty impl = st ↔ invalidShape d = true := by
  cases d with
  | ident n =>
      by_cases hn : n = ""
      · subst hn
        simp [createMockDefinition, resolveMockTarget, invalidShape]
      · simp only [createMockDefinition, resolveMockTarget, invalidShape]
        rw [if_neg (by simp [hn])]
        simp [hn, push_mock_ne]
  | member o p c =>
      cases p with
      | ident pn =>
          cases hb : chainBase o with
          | ident bn =>
              have hfst : (collectSubProps o []).1 = Expr.ident bn := by
                rw [collectSubProps_fst, hb]
              by_cases hpn : pn = ""
              · subst hpn
                simp [createMockDefinition, resolveMockTarget, hfst, invalidShape, hb]
              · by_cases hbn : bn = ""
                · subst hbn
                  simp [createMockDefinition, resolveMockTarget, hfst, invalidShape, hb, hpn]
                · simp only [createMockDefinition, resolveMockTarget, hfst, invalidShape, hb]
                  rw [if_neg (by simp [hpn, hbn])]
                  simp [hpn, hbn, push_mock_ne]
          | member a b c2 =>
              have hfst : (collectSubProps o []).1 = Expr.member a b c2 := by
                rw [collectSubProps_fst, hb]
              simp [createMockDefinition, resolveMockTarget, hfst, invalidShape, hb]
          | stringLit sv =>
              have hfst : (collectSubProps o []).1 = Expr.stringLit sv := by
                rw [collectSubProps_fst, hb]
              simp [createMockDefinition, resolveMockTarget, hfst, invalidShape, hb]
          | call cc aa =>
              have hfst : (collectSubProps o []).1 = Expr.call cc aa := by
                rw [collectSubProps_fst, hb]
              simp [createMockDefinition, resolveMockTarget, hfst, invalidShape, hb]
          | objectExpr ps =>
              have hfst : (collectSubProps o []).1 = Expr.objectExpr ps := by
                rw [collectSubProps_fst, hb]
              simp [createMockDefinition, resolveMockTarget, hfst, invalidShape, hb]
          | arrowFactory ps =>
              have hfst : (collectSubProps o []).1 = Expr.arrowFactory ps := by
                rw [collectSubProps_fst, hb]
              simp [createMockDefinition, resolveMockTarget, hfst, invalidShape, hb]
          | lit t =>
              have hfst : (collectSubProps o []).1 = Expr.lit t := by
                rw [collectSubProps_fst, hb]
              simp [createMockDefinition, resolveMockTarget, hfst, invalidShape, hb]
      | member a b c2 => simp [createMockDefinition, resolveMockTarget, invalidShape]
      | stringLit sv => simp [createMockDefinition, resolveMockTarget, invalidShape]
      | call cc aa => simp [createMockDefinition, resolveMockTarget, invalidShape]
      | objectExpr ps => simp [createMockDefinition, resolveMockTarget, invalidShape]
      | arrowFactory ps => simp [createMockDefinition, resolveMockTarget, invalidShape]
      | lit t => simp [createMockDefinition, resolveMockTarget, invalidShape]
  | stringLit sv => simp [createMockDefinition, resolveMockTarget, invalidShape]
  | call cc aa => simp [createMockDefinition, resolveMockTarget, invalidShape]
  | objectExpr ps => simp [createMockDefinition, resolveMockTarget, invalidShape]
  | arrowFactory ps => simp [createMockDefinition, resolveMockTarget, invalidShape]
  | lit t => simp [createMockDefinition, resolveMockTarget, invalidShape]

/-- C6 (counterexample): for a `FunctionMock` request on `X.a` with no
explicit replacement, the recorded default is a bare `jest.fn()` call; it
is not the display-name-tagged construction `jest.fn().mockName("X.a")`
the claim describes. -/
theorem c6_counterexample :
    (createMockDefinition initState (.member (.ident "X") (.ident "a") false) .mock none).mocks
      = [("X", [⟨["a"], .call (.member (.ident "jest") (.ident "fn") false) []⟩])] ∧
    (Expr.call (.member (.ident "jest") (.ident "fn") false) [] ≠ taggedMockFn "X.a") := by
  refine ⟨rfl, ?_⟩
  intro h
  simp [taggedMockFn] at h

/-- C6 (amended): on a plain chain `root.s1...sn` with no explicit
replacement, the recorded default value is the string literal of the final
segment (the root name if there are no segments) for `NameMock`, and a bare
generated mock-function call `jest.fn()` — with no display-name tag — for
`FunctionMock`. -/
theorem c6_amended_default_values (st : PluginState) (root : String) (segs : List String)
    (ty : MockType) (hroot : root ≠ "") (hlast : segs.getLast?.getD root ≠ "") :
    createMockDefinition st (mkChain root segs) ty none =
      { st with
          mocks := mapSet st.mocks root
            (((mapGet st.mocks root).getD []) ++
              [⟨segs, defaultImpl ty (segs.getLast?.getD root)⟩]) } := by
  rcases List.eq_nil_or_concat segs with rfl | ⟨init, lastSeg, rfl⟩
  · simp only [mkChain, List.foldl_nil, createMockDefinition, resolveMockTarget]
    rw [if_neg (by simp [hroot])]
    simp
  · simp only [List.concat_eq_append] at hlast ⊢
    have hchain : mkChain root (init ++ [lastSeg]) =
        .member (mkChain root init) (.ident lastSeg) false := by
      simp [mkChain, List.foldl_append]
    have hlastSeg : (init ++ [lastSeg]).getLast?.getD root = lastSeg := by simp
    rw [hlastSeg] at hlast ⊢
    rw [hchain]
    simp only [createMockDefinition, resolveMockTarget, collectSubProps_mkChain]
    rw [if_neg (by simp [hlast, hroot])]
    rfl

/-- Witness for the amended C6 at both request kinds on `X.a`. -/
theorem c6_amended_witness :
    ("X" ≠ "") ∧ ((["a"] : List String).getLast?.getD "X" ≠ "") ∧
    createMockDefinition initState (mkChain "X" ["a"]) .mock none =
      { initState with
          mocks := mapSet initState.mocks "X"
            (((mapGet initState.mocks "X").getD []) ++
              [⟨["a"], defaultImpl .mock ((["a"] : List String).getLast?.getD "X")⟩]) } :=
  ⟨by decide, by decide,
    c6_amended_default_values initState "X" ["a"] .mock (by decide) (by decide)⟩

theorem keyProp_fst (kv : String × List MockEntry) (pr : String × Expr)
    (h : keyProp kv = some pr) : pr.1 = kv.1 := by
  unfold keyProp at h
  split at h
  · simp at h
  · simp only [Option.some.injEq] at h
    rw [← h]

theorem mem_filterMap_keyProp (tl : List (String × List MockEntry)) (key : String)
    (e : Expr) (h : (key, e) ∈ tl.filterMap keyProp) : key ∈ tl.map Prod.fst := by
  obtain ⟨kv, hkv, hp⟩ := List.mem_filterMap.mp h
  have h1 : key = kv.1 := keyProp_fst kv (key, e) hp
  rw [h1]
  exact List.mem_map_of_mem Prod.fst hkv

/-- C8: for a key whose collected requests all lack a sub-key, the factory
entry emitted for that key is exactly the last request's replacement, and it
is the only entry emitted for that key — the earlier replacements do not
appear. -/
theorem c8_last_write_wins (d : List (String × List MockEntry)) (key : String)
    (mocks : List MockEntry) (lastMock : MockEntry)
    (hnd : (d.map Prod.fst).Nodup)
    (hmem : (key, mocks) ∈ d)
    (hlast : mocks.getLast? = some lastMock)
    (hflat : ∀ m ∈ mocks, subPropFalsy m.subProperty = true) :
    mapGet (createModuleMockImpl d) key = some lastMock.expression ∧
    ∀ e : Expr, (key, e) ∈ createModuleMockImpl d → e = lastMock.expression := by
  rw [createModuleMockImpl_eq_filterMap]
  have hne : mocks ≠ [] := by
    intro h0
    rw [h0] at hlast
    simp at hlast
  have hkey : keyProp (key, mocks) = some (key, lastMock.expression) := by
    unfold keyProp keyValue
    rw [if_neg (by simpa using hne)]
    rw [if_pos (List.all_eq_true.mpr hflat), hlast]
  have main : ∀ (l : List (String × List MockEntry)), (l.map Prod.fst).Nodup →
      (key, mocks) ∈ l →
      mapGet (l.filterMap keyProp) key = some lastMock.expression ∧
      ∀ e : Expr, (key, e) ∈ l.filterMap keyProp → e = lastMock.expression := by
    intro l
    induction l with
    | nil => intro _ hm; simp at hm
    | cons hd tl ih =>
        intro hnd2 hmem2
        rcases List.mem_cons.mp hmem2 with heq | hmem3
        · subst heq
          rw [List.filterMap_cons, hkey]
          constructor
          · rw [mapGet_cons]
            simp
          · intro e he
            rcases List.mem_cons.mp he with h1 | h2
            · simp at h1
              exact h1
            · exfalso
              have hin := mem_filterMap_keyProp tl key e h2
              have hnin : key ∉ tl.map Prod.fst := by
                simp only [List.map_cons, List.nodup_cons] at hnd2
                exact hnd2.1
              exact hnin hin
        · have hndtl : (tl.map Prod.fst).Nodup := by
            simp only [List.map_cons, List.nodup_cons] at hnd2
            exact hnd2.2
          have hke : hd.1 ≠ key := by
            intro hkeq
            have h1 : key ∈ tl.map Prod.fst := by
              simpa using List.mem_map_of_mem Prod.fst hmem3
            have h2 : hd.1 ∉ tl.map Prod.fst := by
              simp only [List.map_cons, List.nodup_cons] at hnd2
              exact hnd2.1
            rw [hkeq] at h2
            exact h2 h1
          obtain ⟨ih1, ih2⟩ := ih hndtl hmem3
          rw [List.filterMap_cons]
          cases hsel : keyProp hd with
          | none => exact ⟨ih1, ih2⟩
          | some pr =>
              have hpr1 : pr.1 = hd.1 := keyProp_fst hd pr hsel
              constructor
              · rw [mapGet_cons, if_neg (by rw [hpr1]; exact hke)]
                exact ih1
              · intro e he
                rcases List.mem_cons.mp he with h1 | h2
                · exfalso
                  have hfst : key = pr.1 := congrArg Prod.fst h1
                  rw [hpr1] at hfst
                  exact hke hfst.symm
                · exact ih2 e h2
  exact main d hnd hmem

/-- Witness for C8 at two flat requests against one key. -/
theorem c8_witness :
    ((twoFlatRequests.map Prod.fst).Nodup ∧
      ("K", [⟨.stringLit "one", none⟩, ⟨.stringLit "two", none⟩]) ∈ twoFlatRequests ∧
      ([⟨.stringLit "one", none⟩, ⟨.stringLit "two", none⟩] : List MockEntry).getLast?
        = some ⟨.stringLit "two", none⟩) ∧
    (mapGet (createModuleMockImpl twoFlatRequests) "K" = some (.stringLit "two") ∧
      ∀ e : Expr, ("K", e) ∈ createModuleMockImpl twoFlatRequests → e = .stringLit "two") :=
  ⟨⟨by decide, List.mem_singleton.mpr rfl, rfl⟩,
    c8_last_write_wins twoFlatRequests "K"
      [⟨.stringLit "one", none⟩, ⟨.stringLit "two", none⟩] ⟨.stringLit "two", none⟩
      (by decide) (List.mem_singleton.mpr rfl) rfl
      (by intro m hm; rcases List.mem_cons.mp hm with rfl | hm2
          · rfl
          · rcases List.mem_cons.mp hm2 with rfl | hm3
            · rfl
            · simp at hm3)⟩

/-- C9: a call classified as an ignore call (callee matches an ignore
pattern, first argument a string literal) is left in the output untouched:
the visit keeps the statement, records only its module path into
`existingJestMocks`, and the statement survives in the transformed file. -/
theorem c9_ignore_call_untouched (dirs : List String) (pre suf : List Stmt)
    (callee : Expr) (args : List Expr) (v : String)
    (hjm : isJestMockCallExpression callee = true)
    (harg : args.head? = some (.stringLit v)) :
    (∀ st : PluginState, traverseStmt st (.exprStmt (.call callee args)) =
      ({ st with existingJestMocks := st.existingJestMocks ++ [v] },
        some (.exprStmt (.call callee args)))) ∧
    Stmt.exprStmt (.call callee args) ∈
      (transformFile ⟨dirs, pre ++ .exprStmt (.call callee args) :: suf⟩).body := by
  have hstep : ∀ st : PluginState, traverseStmt st (.exprStmt (.call callee args)) =
      ({ st with existingJestMocks := st.existingJestMocks ++ [v] },
        some (.exprStmt (.call callee args))) := by
    intro st
    rw [traverseStmt, visitCallExpression_ignore st callee args v hjm harg]
    simp
  refine ⟨hstep, ?_⟩
  unfold transformFile
  apply mem_post_of_mem
  dsimp only
  rw [show pre ++ Stmt.exprStmt (.call callee args) :: suf
      = pre ++ (Stmt.exprStmt (.call callee args) :: suf) from rfl]
  rw [traverseStmts_append]
  apply List.mem_append_right
  rw [traverseStmts, hstep]
  exact List.mem_cons_self _ _

/-- Witness for C9: a top-level `jest.mock("a")` statement. -/
theorem c9_witness :
    (∀ st : PluginState,
      traverseStmt st (.exprStmt (.call (jestCallee "mock") [.stringLit "a"])) =
        ({ st with existingJestMocks := st.existingJestMocks ++ ["a"] },
          some (.exprStmt (.call (jestCallee "mock") [.stringLit "a"])))) ∧
    Stmt.exprStmt (.call (jestCallee "mock") [.stringLit "a"]) ∈
      (transformFile ⟨[], [] ++ .exprStmt (.call (jestCallee "mock") [.stringLit "a"]) :: []⟩).body :=
  c9_ignore_call_untouched [] [] [] (jestCallee "mock") [.stringLit "a"] "a" rfl rfl

/-- C10: classification is applied to every call-expression node visited, at
any nesting depth: a mock-request call nested inside `n` scopes updates the
state exactly as at top level and is deleted, and an ignore call nested
inside `n` scopes records its module path for suppression and is kept. -/
theorem c10_nested_calls_visited :
    (∀ (n : Nat) (st : PluginState) (callee : Expr) (args : List Expr) (ty : MockType),
      isMockObjCallExpession callee = some ty →
      traverseStmt st (nestStmt n (.exprStmt (.call callee args))) =
        ((visitCallExpression st (.call callee args)).1, removedShell n)) ∧
    (∀ (n : Nat) (st : PluginState) (callee : Expr) (args : List Expr) (v : String),
      isJestMockCallExpression callee = true →
      args.head? = some (.stringLit v) →
      traverseStmt st (nestStmt n (.exprStmt (.call callee args))) =
        ({ st with existingJestMocks := st.existingJestMocks ++ [v] },
          some (nestStmt n (.exprStmt (.call callee args))))) := by
  constructor
  · intro n
    induction n with
    | zero =>
        intro st callee args ty h
        have h2 := visitCallExpression_mockObj_removes st callee args ty h
        rw [nestStmt, removedShell, traverseStmt, h2]
        simp
    | succ n ih =>
        intro st callee args ty h
        rw [nestStmt, traverseStmt, traverseStmts, ih st callee args ty h,
          traverseStmts, removedShell]
        cases removedShell n <;> simp
  · intro n
    induction n with
    | zero =>
        intro st callee args v hjm harg
        rw [nestStmt, traverseStmt, visitCallExpression_ignore st callee args v hjm harg]
        simp
    | succ n ih =>
        intro st callee args v hjm harg
        simp only [nestStmt, traverseStmt, traverseStmts]
        rw [ih st callee args v hjm harg]

/-- Witness for C10 at depth 1: a mock request and an ignore call inside a
function body. -/
theorem c10_witness :
    (traverseStmt initState
        (nestStmt 1 (.exprStmt (.call (jestCallee "mockObj") [.ident "A"]))) =
      ((visitCallExpression initState (.call (jestCallee "mockObj") [.ident "A"])).1,
        removedShell 1)) ∧
    (traverseStmt initState
        (nestStmt 1 (.exprStmt (.call (jestCallee "unmock") [.stringLit "m"]))) =
      ({ initState with existingJestMocks := initState.existingJestMocks ++ ["m"] },
        some (nestStmt 1 (.exprStmt (.call (jestCallee "unmock") [.stringLit "m"]))))) :=
  ⟨c10_nested_calls_visited.1 1 initState (jestCallee "mockObj") [.ident "A"] .name rfl,
    c10_nested_calls_visited.2 1 initState (jestCallee "unmock") [.stringLit "m"] "m" rfl rfl⟩

end JestEasyMock
